import Mathlib

/-!
Shallow embedding of the MQTT fixed-header codec of `src/message/header.go`
(package `message` of the surgemq repository).

Conventions of the embedding:
* a Go byte is a `Nat` that is `< 256`; a byte slice is a `List Nat`;
* Go's `int32` field `remLen` is an `Int`; conversions between the machine
  integer types (`uint64` → `int32`, `int32` → `uint64`) are explicit
  reductions mod `2 ^ 32` / `2 ^ 64`;
* fallible operations return the error value next to the mutated receiver;
  Go run-time panics (out-of-range slice indexing) are a distinct outcome;
* `encode` receives the destination length and returns the bytes it wrote,
  `decode` receives the whole source buffer.
-/

set_option maxRecDepth 100000

namespace SurgeMQ

/-- Modelled from the spec: the maximum remaining length 268435455
(0x0FFFFFFF).  The constant `maxRemainingLength` lives in `message.go`,
which is not among the provided sources. -/
def maxRemainingLength : Int := 268435455

/-- Modelled from the spec: the PUBLISH control packet type is the type
nibble 3 (`message.go`, not among the provided sources). -/
def PUBLISH : Nat := 3

/-- Modelled from the spec: a control packet type is valid when it is one of
the defined values 1..14; 0 and 15 are reserved (`MessageType.Valid` of
`message.go`, not among the provided sources). -/
def MessageType.Valid (t : Nat) : Bool := decide (1 ≤ t ∧ t ≤ 14)

/-- Modelled from the spec: the fixed default flags of each packet type
(`MessageType.DefaultFlags` of `message.go`, not among the provided
sources).  The fixed-flag types PUBREL (6), SUBSCRIBE (8) and
UNSUBSCRIBE (10) carry flags 0b0010 — the spec names SUBSCRIBE = 0b0010 —
and every other type has default flags 0. -/
def MessageType.DefaultFlags (t : Nat) : Nat :=
  if t = 6 ∨ t = 8 ∨ t = 10 then 2 else 0

/-- Modelled from the spec: QoS values 0, 1 and 2 are legal and 3 is
reserved (`ValidQos` of `message.go`, not among the provided sources). -/
def ValidQos (q : Nat) : Bool := decide (q = 0 ∨ q = 1 ∨ q = 2)

/-- The distinct error values returned by the header codec (the Go code
returns distinct `fmt.Errorf` values; the spec's §7 taxonomy).
`TypeMismatch` is decode's "Invalid message type %d. Expecting %d." error,
raised when the type already stored in the header differs from the type
nibble of the buffer. -/
inductive HError where
  | InvalidPacketType
  | TypeMismatch
  | InvalidFlags
  | InvalidQoS
  | RemainingLengthOutOfRange
  | TruncatedMessage
  | BufferTooSmall
  deriving DecidableEq, Repr

/-- The `header` struct of header.go: `remLen` (an `int32`), the byte
slices `mTypeFlags` and `packetID`, the decoding buffer `dBuf`, and the
`dirty` flag. -/
structure header where
  remLen : Int
  mTypeFlags : List Nat
  packetID : List Nat
  dBuf : List Nat
  dirty : Bool
  deriving DecidableEq, Repr

/-- The zero value of the `header` struct: a freshly constructed Go header
(zero remaining length, nil slices, not dirty). -/
def header.fresh : header := ⟨0, [], [], [], false⟩

/-- `encoding/binary`'s `PutUvarint` as the list of bytes it writes: while
`x ≥ 0x80` it writes `byte(x) | 0x80` and shifts `x` right by 7, then it
writes the final byte.  For a `uint64` argument the Go loop runs at most
10 times, which the fuel argument of `putUvarintAux` makes explicit. -/
def putUvarintAux : Nat → Nat → List Nat
  | 0, x => [x % 256]
  | fuel + 1, x =>
    if x < 128 then [x] else (x % 256 ||| 128) :: putUvarintAux fuel (x >>> 7)

/-- `encoding/binary.PutUvarint` for a `uint64` value (10 bytes suffice). -/
def putUvarint (x : Nat) : List Nat := putUvarintAux 10 x

/-- The loop of `encoding/binary`'s `Uvarint`: `i` is the byte index, `x`
the accumulated `uint64` value and `s` the shift.  The returned count is
positive on success, 0 when the buffer ends before a terminating byte, and
negative on overflow (more than `MaxVarintLen64 = 10` bytes, or a 10-byte
varint whose final byte exceeds 1).  `uint64` arithmetic is mod `2 ^ 64`. -/
def uvarintLoop : List Nat → Nat → Nat → Nat → Nat × Int
  | [], _, _, _ => (0, 0)
  | b :: rest, i, x, s =>
    if i = 10 then (0, -((i : Int) + 1))
    else if b < 128 then
      if i = 9 ∧ 1 < b then (0, -((i : Int) + 1))
      else (x ||| (b <<< s) % 2 ^ 64, (i : Int) + 1)
    else uvarintLoop rest (i + 1) (x ||| ((b &&& 127) <<< s) % 2 ^ 64) (s + 7)

/-- `encoding/binary.Uvarint`. -/
def uvarint (buf : List Nat) : Nat × Int := uvarintLoop buf 0 0 0

/-- Go's conversion `uint64` → `int32`: keep the low 32 bits, read as
two's complement. -/
def int32ofUint64 (x : Nat) : Int :=
  if x % 2 ^ 32 < 2 ^ 31 then ((x % 2 ^ 32 : Nat) : Int)
  else ((x % 2 ^ 32 : Nat) : Int) - 2 ^ 32

/-- Go's conversion `int32` → `uint64`: sign extension, i.e. reduction of
the signed value into `0 .. 2 ^ 64 - 1`. -/
def uint64ofInt32 (x : Int) : Nat := (x % 2 ^ 64).toNat

/-- `header.Type` (header.go lines 70-78), named `mType` here because
`Type` is reserved in Lean: if `mTypeFlags` is not a 1-byte slice it
allocates a fresh zero byte and marks the header dirty, then it returns
the top nibble of the stored byte next to the possibly mutated header. -/
def header.mType (h : header) : header × Nat :=
  let h1 :=
    if h.mTypeFlags.length ≠ 1 then { h with mTypeFlags := [0], dirty := true }
    else h
  (h1, h1.mTypeFlags.headD 0 >>> 4)

/-- `header.Flags` (header.go lines 102-105): `mTypeFlags[0] & 0x0f`.
Indexing a nil/empty slice panics in Go, modelled as `none`. -/
def header.Flags (h : header) : Option Nat :=
  match h.mTypeFlags with
  | [] => none
  | b :: _ => some (b &&& 15)

/-- `header.SetType` (header.go lines 82-99): rejects invalid types;
otherwise it (re)allocates the 1-byte slice if needed (marking dirty) and
stores `byte(mtype)<<4 | (mtype.DefaultFlags() & 0xf)`. -/
def header.SetType (h : header) (mtype : Nat) : header × Option HError :=
  if ¬ MessageType.Valid mtype then (h, some .InvalidPacketType)
  else
    let h1 :=
      if h.mTypeFlags.length ≠ 1 then { h with mTypeFlags := [0], dirty := true }
      else h
    ({ h1 with
        mTypeFlags := [((mtype % 256) <<< 4) % 256 ||| (MessageType.DefaultFlags mtype &&& 15)] },
      none)

/-- `header.SetRemainingLength` (header.go lines 115-124). -/
def header.SetRemainingLength (h : header) (remlen : Int) : header × Option HError :=
  if remlen > maxRemainingLength ∨ remlen < 0 then (h, some .RemainingLengthOutOfRange)
  else ({ h with remLen := remlen, dirty := true }, none)

/-- `header.PacketId` (header.go lines 131-137): the big-endian `uint16`
when the slice has length 2, else 0. -/
def header.PacketId (h : header) : Nat :=
  match h.packetID with
  | [b0, b1] => b0 * 256 + b1
  | _ => 0

/-- `header.SetPacketId` (header.go lines 140-158): setting 0 is a no-op;
otherwise allocate the 2-byte slice if needed (marking dirty) and store
`v` big-endian. -/
def header.SetPacketId (h : header) (v : Nat) : header :=
  if v = 0 then h
  else
    let h1 :=
      if h.packetID.length ≠ 2 then { h with packetID := [0, 0], dirty := true }
      else h
    { h1 with packetID := [v >>> 8 % 256, v % 256] }

/-- `header.msgLen` (header.go lines 233-248): 1 byte for type/flags plus
the 1-4 bytes of the remaining-length varint. -/
def header.msgLen (h : header) : Nat :=
  1 + (if h.remLen ≤ 127 then 1
       else if h.remLen ≤ 16383 then 2
       else if h.remLen ≤ 2097151 then 3
       else 4)

/-- The outcome of `encode`: on success the written prefix `dst[0:total]`
together with `total`; on failure the returned count (always 0 here) and
the error. -/
inductive EncodeOut where
  | ok (bytes : List Nat) (n : Nat)
  | err (n : Nat) (e : HError)
  deriving DecidableEq, Repr

/-- `header.encode` (header.go lines 160-184).  `dstLen` is `len(dst)`.
Checks, in source order: buffer capacity against `msgLen`; the remaining
length bound; type validity (the `h.Type()` call can mutate the header).
On success it writes the type/flags byte and then the remaining-length
varint. -/
def header.encode (h : header) (dstLen : Nat) : header × EncodeOut :=
  let ml := h.msgLen
  if dstLen < ml then (h, .err 0 .BufferTooSmall)
  else if h.remLen > maxRemainingLength ∨ h.remLen < 0 then
    (h, .err 0 .RemainingLengthOutOfRange)
  else
    let p := h.mType
    if ¬ MessageType.Valid p.2 then (p.1, .err 0 .InvalidPacketType)
    else
      let varint := putUvarint (uint64ofInt32 p.1.remLen)
      (p.1, .ok (p.1.mTypeFlags.headD 0 :: varint) (1 + varint.length))

/-- The outcome of `decode`: the returned byte count on success, the
count and error on failure, or a Go run-time panic. -/
inductive DecodeOut where
  | ok (n : Int)
  | err (n : Int) (e : HError)
  | panic
  deriving DecidableEq, Repr

/-- `header.decode` (header.go lines 189-231), returning the header as
mutated up to the point of return together with the outcome.  In source
order: store `dBuf`; read the prior type via `h.Type()` (which allocates
and marks dirty on a fresh header); re-point `mTypeFlags` at `src[0:1]`
(a panic when `src` is empty); validate the type nibble, the prior-type
match, the flags and the PUBLISH QoS; then parse the remaining-length
varint with `binary.Uvarint` and check its range (the `remLen < 0` arm
tests the unsigned value and is vacuous) and the truncation condition,
whose `src[total:]` slice is a panic when `total` is negative. -/
def header.decode (h : header) (src : List Nat) : header × DecodeOut :=
  let h0 := { h with dBuf := src }
  let p := h0.mType
  let mType := p.2
  match src with
  | [] => (p.1, .panic)
  | b :: rest =>
    let h1 := { p.1 with mTypeFlags := [b] }
    let t := b >>> 4
    if ¬ MessageType.Valid t then (h1, .err 0 .InvalidPacketType)
    else if mType ≠ t then (h1, .err 0 .TypeMismatch)
    else if t ≠ PUBLISH ∧ b &&& 15 ≠ MessageType.DefaultFlags t then
      (h1, .err 0 .InvalidFlags)
    else if t = PUBLISH ∧ ¬ ValidQos (((b &&& 15) >>> 1) &&& 3) then
      (h1, .err 0 .InvalidQoS)
    else
      let q := uvarint rest
      let total : Int := 1 + q.2
      let h2 := { h1 with remLen := int32ofUint64 q.1 }
      if h2.remLen > maxRemainingLength ∨ q.1 < 0 then
        (h2, .err total .RemainingLengthOutOfRange)
      else if total < 0 ∨ (src.length : Int) < total then (h2, .panic)
      else if (src.length : Int) - total < h2.remLen then
        (h2, .err total .TruncatedMessage)
      else (h2, .ok total)

/-! ### Byte-level arithmetic facts -/

theorem byte_or128 : ∀ y < 256, y ||| 128 = y % 128 + 128 := by decide

theorem byte_and127 : ∀ y < 256, y &&& 127 = y % 128 := by decide

theorem byte_hi_split : ∀ y < 256, 128 ≤ y → (y &&& 127) + 128 = y := by decide

/-- Joining a value below `2 ^ s` with a multiple of `2 ^ s` by bitwise or
is plain addition: the bit ranges are disjoint. -/
theorem lor_mul_pow_eq_add {x a s : Nat} (hx : x < 2 ^ s) :
    x ||| a * 2 ^ s = x + a * 2 ^ s := by
  apply Nat.eq_of_testBit_eq
  intro j
  rw [Nat.testBit_or, show x + a * 2 ^ s = 2 ^ s * a + x by ring,
    Nat.testBit_mul_pow_two_add a hx j,
    show a * 2 ^ s = a <<< s by rw [Nat.shiftLeft_eq], Nat.testBit_shiftLeft]
  by_cases hj : j < s
  · simp [hj, Nat.not_le_of_lt hj]
  · have hxj : x < 2 ^ j :=
      lt_of_lt_of_le hx (Nat.pow_le_pow_right (by norm_num) (Nat.le_of_not_lt hj))
    simp [hj, Nat.le_of_not_lt hj, Nat.testBit_lt_two_pow hxj]

theorem small_mul_pow_lt {a s c : Nat} (ha : a < 2 ^ c) (hs : c + s ≤ 64) :
    a * 2 ^ s < 2 ^ 64 := by
  have h1 : a * 2 ^ s < 2 ^ c * 2 ^ s :=
    Nat.mul_lt_mul_of_lt_of_le ha (Nat.le_refl _) (Nat.two_pow_pos s)
  have h2 : (2 : Nat) ^ c * 2 ^ s = 2 ^ (c + s) := (pow_add 2 c s).symm
  have h3 : (2 : Nat) ^ (c + s) ≤ 2 ^ 64 := Nat.pow_le_pow_right (by norm_num) hs
  omega

/-! ### Unfolding equations for the varint functions -/

theorem putUvarintAux_succ (fuel x : Nat) :
    putUvarintAux (fuel + 1) x =
      if x < 128 then [x] else (x % 256 ||| 128) :: putUvarintAux fuel (x >>> 7) := rfl

theorem uvarintLoop_nil (i x s : Nat) : uvarintLoop [] i x s = (0, 0) := rfl

theorem uvarintLoop_cons (b : Nat) (rest : List Nat) (i x s : Nat) :
    uvarintLoop (b :: rest) i x s =
      if i = 10 then (0, -((i : Int) + 1))
      else if b < 128 then
        if i = 9 ∧ 1 < b then (0, -((i : Int) + 1))
        else (x ||| (b <<< s) % 2 ^ 64, (i : Int) + 1)
      else uvarintLoop rest (i + 1) (x ||| ((b &&& 127) <<< s) % 2 ^ 64) (s + 7) := rfl

/-- One continuation byte (high bit set) of the `Uvarint` loop, with the
accumulator rewritten into plain arithmetic. -/
theorem uvarint_step_cont {b : Nat} (rest : List Nat) (i x s : Nat)
    (hb1 : 128 ≤ b) (hb2 : b < 256) (hi : i < 10) (hx : x < 2 ^ s) (hs : s ≤ 57) :
    uvarintLoop (b :: rest) i x s =
      uvarintLoop rest (i + 1) (x + (b &&& 127) * 2 ^ s) (s + 7) := by
  rw [uvarintLoop_cons, if_neg (by omega), if_neg (by omega)]
  have ha : b &&& 127 < 128 := Nat.lt_succ_of_le Nat.and_le_right
  rw [Nat.shiftLeft_eq,
    Nat.mod_eq_of_lt (small_mul_pow_lt (c := 7) (by omega) (by omega)),
    lor_mul_pow_eq_add hx]

/-- The terminating byte (high bit clear) of the `Uvarint` loop at an index
below 9, with the result rewritten into plain arithmetic. -/
theorem uvarint_step_last {b : Nat} (rest : List Nat) (i x s : Nat)
    (hb : b < 128) (hi : i < 9) (hx : x < 2 ^ s) (hs : s ≤ 57) :
    uvarintLoop (b :: rest) i x s = (x + b * 2 ^ s, (i : Int) + 1) := by
  rw [uvarintLoop_cons, if_neg (by omega), if_pos hb, if_neg (by omega),
    Nat.shiftLeft_eq,
    Nat.mod_eq_of_lt (small_mul_pow_lt (c := 7) (by omega) (by omega)),
    lor_mul_pow_eq_add hx]

/-- The byte count produced by the `Uvarint` loop is nonpositive or lies in
`(i, i + length]`. -/
theorem uvarintLoop_snd_bounds :
    ∀ (l : List Nat) (i x s : Nat),
      (uvarintLoop l i x s).2 ≤ 0 ∨
        ((i : Int) < (uvarintLoop l i x s).2 ∧
          (uvarintLoop l i x s).2 ≤ (i : Int) + l.length)
  | [], i, x, s => by
    rw [uvarintLoop_nil]; left; exact le_refl 0
  | b :: rest, i, x, s => by
    rw [uvarintLoop_cons]
    by_cases h10 : i = 10
    · rw [if_pos h10]; left
      show -((i : Int) + 1) ≤ 0
      omega
    · rw [if_neg h10]
      by_cases hb : b < 128
      · rw [if_pos hb]
        by_cases h9 : i = 9 ∧ 1 < b
        · rw [if_pos h9]; left
          show -((i : Int) + 1) ≤ 0
          omega
        · rw [if_neg h9]; right
          refine ⟨by show (i : Int) < (i : Int) + 1; omega, ?_⟩
          show (i : Int) + 1 ≤ (i : Int) + (b :: rest).length
          simp only [List.length_cons]
          push_cast
          omega
      · rw [if_neg hb]
        have ih := uvarintLoop_snd_bounds rest (i + 1) (x ||| ((b &&& 127) <<< s) % 2 ^ 64) (s + 7)
        set r := uvarintLoop rest (i + 1) (x ||| ((b &&& 127) <<< s) % 2 ^ 64) (s + 7) with hr
        rcases ih with h | ⟨h1, h2⟩
        · left; exact h
        · right
          refine ⟨?_, ?_⟩
          · push_cast at h1
            omega
          · simp only [List.length_cons] at h2 ⊢
            push_cast at h2 ⊢
            omega

/-- `Uvarint` never reports more bytes than the buffer holds. -/
theorem uvarint_snd_le_length (l : List Nat) : (uvarint l).2 ≤ (l.length : Int) := by
  rcases uvarintLoop_snd_bounds l 0 0 0 with h | ⟨_, h2⟩
  · exact le_trans h (by positivity)
  · simpa using h2

/-! ### The shapes of `PutUvarint` on the four remaining-length ranges -/

theorem putUvarint_one {v : Nat} (h : v ≤ 127) : putUvarint v = [v] := by
  rw [putUvarint, show (10 : Nat) = 9 + 1 from rfl, putUvarintAux_succ, if_pos (by omega)]

theorem shiftRight7_eq_div (v : Nat) : v >>> 7 = v / 128 :=
  Nat.shiftRight_eq_div_pow v 7

theorem putUvarint_byte0 (v : Nat) : v % 256 ||| 128 = v % 128 + 128 := by
  rw [byte_or128 (v % 256) (Nat.mod_lt _ (by norm_num)),
    Nat.mod_mod_of_dvd v (by norm_num)]

theorem putUvarint_two {v : Nat} (h1 : 128 ≤ v) (h2 : v ≤ 16383) :
    putUvarint v = [v % 128 + 128, v / 128] := by
  rw [putUvarint, show (10 : Nat) = 9 + 1 from rfl, putUvarintAux_succ, if_neg (by omega),
    putUvarint_byte0 _, shiftRight7_eq_div,
    show (9 : Nat) = 8 + 1 from rfl, putUvarintAux_succ, if_pos (by omega)]

theorem putUvarint_three {v : Nat} (h1 : 16384 ≤ v) (h2 : v ≤ 2097151) :
    putUvarint v = [v % 128 + 128, v / 128 % 128 + 128, v / 16384] := by
  rw [putUvarint, show (10 : Nat) = 9 + 1 from rfl, putUvarintAux_succ, if_neg (by omega),
    putUvarint_byte0 _, shiftRight7_eq_div,
    show (9 : Nat) = 8 + 1 from rfl, putUvarintAux_succ, if_neg (by omega),
    putUvarint_byte0 _, shiftRight7_eq_div,
    show (8 : Nat) = 7 + 1 from rfl, putUvarintAux_succ, if_pos (by omega)]
  norm_num [Nat.div_div_eq_div_mul]

theorem putUvarint_four {v : Nat} (h1 : 2097152 ≤ v) (h2 : v ≤ 268435455) :
    putUvarint v =
      [v % 128 + 128, v / 128 % 128 + 128, v / 16384 % 128 + 128, v / 2097152] := by
  rw [putUvarint, show (10 : Nat) = 9 + 1 from rfl, putUvarintAux_succ, if_neg (by omega),
    putUvarint_byte0 _, shiftRight7_eq_div,
    show (9 : Nat) = 8 + 1 from rfl, putUvarintAux_succ, if_neg (by omega),
    putUvarint_byte0 _, shiftRight7_eq_div,
    show (8 : Nat) = 7 + 1 from rfl, putUvarintAux_succ, if_neg (by omega),
    putUvarint_byte0 _, shiftRight7_eq_div,
    show (7 : Nat) = 6 + 1 from rfl, putUvarintAux_succ, if_pos (by omega)]
  norm_num [Nat.div_div_eq_div_mul]

theorem putUvarint_length {v : Nat} (hv : v ≤ 268435455) :
    (putUvarint v).length =
      if v ≤ 127 then 1 else if v ≤ 16383 then 2 else if v ≤ 2097151 then 3 else 4 := by
  rcases Nat.lt_or_ge v 128 with h | h
  · rw [putUvarint_one (by omega), if_pos (by omega)]; rfl
  rcases Nat.lt_or_ge v 16384 with h2 | h2
  · rw [putUvarint_two (by omega) (by omega), if_neg (by omega), if_pos (by omega)]; rfl
  rcases Nat.lt_or_ge v 2097152 with h3 | h3
  · rw [putUvarint_three (by omega) (by omega), if_neg (by omega), if_neg (by omega),
      if_pos (by omega)]
    rfl
  · rw [putUvarint_four (by omega) hv, if_neg (by omega), if_neg (by omega), if_neg (by omega)]
    rfl

/-- Round trip: decoding a buffer that starts with the `PutUvarint`
encoding of a value in the legal remaining-length range recovers the value
and consumes exactly the encoded bytes. -/
theorem uvarint_putUvarint {v : Nat} (hv : v ≤ 268435455) (tail : List Nat) :
    uvarint (putUvarint v ++ tail) = (v, ((putUvarint v).length : Int)) := by
  rcases Nat.lt_or_ge v 128 with h | h
  · rw [putUvarint_one (by omega)]
    rw [uvarint, List.cons_append, List.nil_append,
      uvarint_step_last tail 0 0 0 (by omega) (by omega) (by norm_num) (by omega)]
    simp only [List.length_cons, List.length_nil, Prod.mk.injEq]
    refine ⟨by norm_num, by norm_num⟩
  rcases Nat.lt_or_ge v 16384 with h2 | h2
  · rw [putUvarint_two (by omega) (by omega)]
    rw [uvarint, List.cons_append, List.cons_append, List.nil_append,
      uvarint_step_cont _ 0 0 0 (by omega) (by omega) (by omega) (by norm_num) (by omega),
      byte_and127 _ (by omega),
      uvarint_step_last tail 1 _ 7 (by omega) (by omega) (by norm_num; omega) (by omega)]
    simp only [List.length_cons, List.length_nil, Prod.mk.injEq]
    refine ⟨by norm_num; omega, by norm_num⟩
  rcases Nat.lt_or_ge v 2097152 with h3 | h3
  · rw [putUvarint_three (by omega) (by omega)]
    rw [uvarint, List.cons_append, List.cons_append, List.cons_append, List.nil_append,
      uvarint_step_cont _ 0 0 0 (by omega) (by omega) (by omega) (by norm_num) (by omega),
      byte_and127 _ (by omega),
      uvarint_step_cont _ 1 _ 7 (by omega) (by omega) (by omega) (by norm_num; omega) (by omega),
      byte_and127 _ (by omega),
      uvarint_step_last tail 2 _ 14 (by omega) (by omega) (by norm_num; omega) (by omega)]
    simp only [List.length_cons, List.length_nil, Prod.mk.injEq]
    refine ⟨by norm_num; omega, by norm_num⟩
  · rw [putUvarint_four (by omega) hv]
    rw [uvarint, List.cons_append, List.cons_append, List.cons_append, List.cons_append,
      List.nil_append,
      uvarint_step_cont _ 0 0 0 (by omega) (by omega) (by omega) (by norm_num) (by omega),
      byte_and127 _ (by omega),
      uvarint_step_cont _ 1 _ 7 (by omega) (by omega) (by omega) (by norm_num; omega) (by omega),
      byte_and127 _ (by omega),
      uvarint_step_cont _ 2 _ 14 (by omega) (by omega) (by omega) (by norm_num; omega) (by omega),
      byte_and127 _ (by omega),
      uvarint_step_last tail 3 _ 21 (by omega) (by omega) (by norm_num; omega) (by omega)]
    simp only [List.length_cons, List.length_nil, Prod.mk.injEq]
    refine ⟨by norm_num; omega, by norm_num⟩

/-! ### Conversion and length lemmas -/

theorem int32ofUint64_small {v : Nat} (hv : v < 2 ^ 31) : int32ofUint64 v = (v : Int) := by
  unfold int32ofUint64
  have h32 : v % 2 ^ 32 = v := Nat.mod_eq_of_lt (by norm_num at hv ⊢; omega)
  rw [h32, if_pos hv]

theorem uint64ofInt32_nonneg {r : Int} (h0 : 0 ≤ r) (h1 : r < 2 ^ 64) :
    uint64ofInt32 r = r.toNat := by
  unfold uint64ofInt32
  rw [Int.emod_eq_of_lt h0 h1]

theorem msgLen_mk {v : Nat} (hv : v ≤ 268435455) (tf pid db : List Nat) (d : Bool) :
    (header.mk (v : Int) tf pid db d).msgLen = 1 + (putUvarint v).length := by
  rw [putUvarint_length hv]
  unfold header.msgLen
  dsimp only
  congr 1
  split_ifs <;> omega

/-- The second projection of `header.Type` does not depend on `dBuf`. -/
theorem mType_snd_dBuf (h : header) (src : List Nat) :
    ({ h with dBuf := src } : header).mType.2 = h.mType.2 := by
  unfold header.mType
  by_cases hc : h.mTypeFlags.length ≠ 1 <;> simp [hc]

/-! ### C10 — SetRemainingLength -/

/-- C10: `setRemainingLength n` fails with `RemainingLengthOutOfRange`
exactly when `n < 0` or `n > 268435455` and leaves the header completely
unchanged in that case; on success it stores `n`, sets the dirty flag, and
leaves the type/flags byte and the packet identifier unchanged. -/
theorem C10_setRemainingLength (h : header) (n : Int) :
    h.SetRemainingLength n =
      if n < 0 ∨ n > maxRemainingLength then (h, some .RemainingLengthOutOfRange)
      else ({ h with remLen := n, dirty := true }, none) := by
  unfold header.SetRemainingLength
  by_cases hc : n > maxRemainingLength ∨ n < 0
  · rw [if_pos hc, if_pos (by tauto)]
  · rw [if_neg hc, if_neg (by tauto)]

/-! ### C3 — malformed varints are not rejected (code bug) -/

/-- C3: evaluation at the failing input.  Decoding the buffer
`[0x10, 0x80]` — a valid CONNECT type byte followed by a lone continuation
byte, i.e. a truncated varint — on a header whose current type is already
CONNECT returns success (1 byte consumed, remaining length 0) instead of
the `RemainingLengthOutOfRange` error the claim requires: `binary.Uvarint`
reports the malformed varint as `(0, 0)` and decode's guard `remLen < 0`
tests the unsigned value, which is never negative. -/
theorem C3_truncated_varint_accepted :
    (header.fresh.SetType 1).1.decode [16, 128] =
      (header.mk 0 [16] [] [16, 128] true, .ok 1) := by decide

/-! ### C5 — decode and Flags can panic (code bug) -/

/-- C5: evaluation at the failing inputs.  Decoding the empty buffer
panics (the slice expression `src[0:1]` is out of range), and the flags
accessor on a freshly constructed header panics (indexing a nil slice),
contradicting the claim that malformed input always yields error values
and that neither operation panics. -/
theorem C5_decode_empty_panics :
    header.fresh.decode [] = (header.mk 0 [0] [] [] true, .panic) ∧
    header.fresh.Flags = none := by decide

/-! ### C4 — decode does not clear the dirty flag -/

/-- C4: counterexample to the claim as stated.  `SetType(CONNECT)` on a
fresh header marks it dirty; a subsequent successful decode of
`[0x10, 0x00]` leaves the dirty flag true, so a successful decode does
not always leave the header clean. -/
theorem C4_cex_dirty_survives_decode :
    ((header.fresh.SetType 1).1.decode [16, 0]).2 = .ok 2 ∧
    ¬ ((header.fresh.SetType 1).1.decode [16, 0]).1.dirty = false := by decide

/-! ### C6 — re-encoding after decoding a non-minimal varint -/

/-- C6: counterexample to the claim as stated.  The buffer
`[0x10, 0x80, 0x00]` carries remaining length 0 in a non-minimal 2-byte
varint; decode succeeds consuming 3 bytes, but an immediate encode writes
the 2-byte canonical form `[0x10, 0x00]`, not the 3 consumed bytes. -/
theorem C6_cex_nonminimal_varint :
    ((header.fresh.SetType 1).1.decode [16, 128, 0]).2 = .ok 3 ∧
    (((header.fresh.SetType 1).1.decode [16, 128, 0]).1.encode 3).2 = .ok [16, 0] 2 ∧
    [16, 0] ≠ List.take 3 [16, 128, 0] := by decide

/-! ### C7 — encode on a negative stored remaining length -/

/-- C7: counterexample to the claim as stated.  The 5-byte varint
`FF FF FF FF 0F` decodes to `2^32 - 1`, which the `int32` conversion
stores as remaining length `-1`; decode succeeds, and although `-1` is
"at most 127", encode then fails with `RemainingLengthOutOfRange` instead
of writing a 1-byte remaining-length field. -/
theorem C7_cex_negative_remaining_length :
    ((header.fresh.SetType 1).1.decode [16, 255, 255, 255, 255, 15]).2 = .ok 6 ∧
    ((header.fresh.SetType 1).1.decode [16, 255, 255, 255, 255, 15]).1.remLen = -1 ∧
    (((header.fresh.SetType 1).1.decode [16, 255, 255, 255, 255, 15]).1.encode 2).2 =
      .err 0 .RemainingLengthOutOfRange := by decide

/-! ### C9 — an overlong varint makes decode panic -/

/-- C9: counterexample to the claim as stated.  A CONNECT byte followed by
ten continuation bytes and a terminator passes the type, flags and (vacuous)
remaining-length-range checks, and its declared remaining length 0 does not
exceed the bytes remaining, yet decode panics — `binary.Uvarint` returns
byte count `-11`, so the truncation check slices `src[-10:]` — instead of
succeeding. -/
theorem C9_cex_overlong_varint_panics :
    ((header.fresh.SetType 1).1.decode (16 :: (List.replicate 10 128 ++ [1]))).2 =
      .panic := by decide

/-! ### C2 — decode requires the prior stored type to match the buffer -/

/-- Inversion of a successful decode: the source is nonempty, the header
already held a 1-byte type slice whose type nibble matches the buffer, the
validation checks passed, and the result header and count are determined
by the source bytes. -/
theorem decode_ok_inversion {h h' : header} {src : List Nat} {n : Int}
    (hdec : h.decode src = (h', .ok n)) :
    ∃ b rest, src = b :: rest ∧
      h.mTypeFlags.length = 1 ∧
      MessageType.Valid (b >>> 4) = true ∧
      h.mTypeFlags.headD 0 >>> 4 = b >>> 4 ∧
      n = 1 + (uvarint rest).2 ∧
      h' = header.mk (int32ofUint64 (uvarint rest).1) [b] h.packetID (b :: rest) h.dirty ∧
      int32ofUint64 (uvarint rest).1 ≤ maxRemainingLength ∧
      0 ≤ 1 + (uvarint rest).2 ∧
      1 + (uvarint rest).2 ≤ ((b :: rest).length : Int) ∧
      int32ofUint64 (uvarint rest).1 ≤ ((b :: rest).length : Int) - (1 + (uvarint rest).2) := by
  cases src with
  | nil =>
    exfalso
    simp only [header.decode, header.mType] at hdec
    simp at hdec
  | cons b rest =>
    refine ⟨b, rest, rfl, ?_⟩
    by_cases hc : h.mTypeFlags.length ≠ 1
    · exfalso
      simp only [header.decode, header.mType, if_pos hc, List.headD_cons,
        Nat.zero_shiftRight] at hdec
      split at hdec
      · simp at hdec
      · next hval =>
        split at hdec
        · simp at hdec
        · next hmis =>
          have hv := of_decide_eq_true (Decidable.not_not.mp hval)
          have hz : (0 : Nat) = b >>> 4 := Decidable.not_not.mp hmis
          omega
    · simp only [header.decode, header.mType, if_neg hc] at hdec
      split at hdec
      · simp at hdec
      · next hval =>
        split at hdec
        · simp at hdec
        · next hmis =>
          split at hdec
          · simp at hdec
          · split at hdec
            · simp at hdec
            · split at hdec
              · simp at hdec
              · next hrange =>
                split at hdec
                · simp at hdec
                · next hpanic =>
                  split at hdec
                  · simp at hdec
                  · next htrunc =>
                    simp only [Prod.mk.injEq, DecodeOut.ok.injEq] at hdec
                    obtain ⟨hh, hn⟩ := hdec
                    have h1 := not_or.mp hrange
                    have h2 := not_or.mp hpanic
                    refine ⟨by omega, Decidable.not_not.mp hval,
                      Decidable.not_not.mp hmis, hn.symm, hh.symm,
                      by omega, by omega, by omega, by omega⟩

/-- C2: decoding any buffer whose first byte carries a valid packet type
into a freshly constructed header fails (with the type-mismatch error,
because the fresh header's type reads as 0), and a successful decode on any
header requires the header's type as read before the call to equal the
type nibble of the buffer's first byte. -/
theorem C2_prior_type_gate :
    (∀ (b : Nat) (rest : List Nat), MessageType.Valid (b >>> 4) = true →
        (header.fresh.decode (b :: rest)).2 = .err 0 .TypeMismatch) ∧
    (∀ (h h' : header) (src : List Nat) (n : Int),
        h.decode src = (h', .ok n) → h.mType.2 = src.headD 0 >>> 4) := by
  constructor
  · intro b rest hval
    have hv1 : 1 ≤ b >>> 4 := (of_decide_eq_true hval).1
    simp only [header.decode, header.mType, header.fresh]
    norm_num
    rw [if_neg (by simp [hval]), if_neg (by omega)]
  · intro h h' src n hdec
    obtain ⟨b, rest, hsrc, hlen, _, hty, _⟩ := decode_ok_inversion hdec
    subst hsrc
    simp only [List.headD_cons]
    unfold header.mType
    dsimp only
    rw [if_neg (by omega : ¬ h.mTypeFlags.length ≠ 1)]
    exact hty

theorem msgLen_bounds (h : header) : 2 ≤ h.msgLen ∧ h.msgLen ≤ 5 := by
  unfold header.msgLen
  split_ifs <;> omega

/-- Inversion of `Uvarint` on a buffer it decodes in 1-4 bytes: the value
lies in the legal remaining-length range, and when the reported byte count
equals the minimal encoded length of the value, the consumed bytes are
exactly the canonical `PutUvarint` encoding. -/
theorem uvarint_bytes {l : List Nat} {v m : Nat}
    (hb : ∀ x ∈ l, x < 256)
    (h : uvarint l = (v, (m : Int))) (hm1 : 1 ≤ m) (hm4 : m ≤ 4) :
    v ≤ 268435455 ∧ ((putUvarint v).length = m → l.take m = putUvarint v) := by
  cases l with
  | nil =>
    rw [uvarint, uvarintLoop_nil] at h
    simp only [Prod.mk.injEq] at h
    omega
  | cons b0 l0 =>
    have hb0 : b0 < 256 := hb b0 (by simp)
    rw [uvarint] at h
    by_cases c0 : b0 < 128
    · rw [uvarint_step_last l0 0 0 0 c0 (by omega) (by norm_num) (by omega)] at h
      norm_num at h
      obtain ⟨hv, hm⟩ := h
      have hmeq : m = 1 := by omega
      subst hmeq
      have hveq : v = b0 := by omega
      subst hveq
      refine ⟨by omega, fun _ => ?_⟩
      rw [putUvarint_one (by omega)]
      rfl
    · have hb0' : 128 ≤ b0 := by omega
      rw [uvarint_step_cont l0 0 0 0 hb0' hb0 (by omega) (by norm_num) (by omega)] at h
      have ha0 : b0 &&& 127 < 128 := Nat.lt_succ_of_le Nat.and_le_right
      cases l0 with
      | nil =>
        rw [uvarintLoop_nil] at h
        simp only [Prod.mk.injEq] at h
        omega
      | cons b1 l1 =>
        have hb1 : b1 < 256 := hb b1 (by simp)
        by_cases c1 : b1 < 128
        · rw [uvarint_step_last l1 1 _ 7 c1 (by omega) (by norm_num; omega) (by omega)] at h
          norm_num at h
          obtain ⟨hv, hm⟩ := h
          have hmeq : m = 2 := by omega
          subst hmeq
          refine ⟨by omega, fun hlen => ?_⟩
          have hsplit := byte_hi_split b0 hb0 hb0'
          have hrange : 128 ≤ v ∧ v ≤ 16383 := by
            rw [putUvarint_length (by omega)] at hlen
            split_ifs at hlen <;> omega
          rw [putUvarint_two hrange.1 hrange.2]
          show [b0, b1] = [v % 128 + 128, v / 128]
          have e1 : v % 128 + 128 = b0 := by omega
          have e2 : v / 128 = b1 := by omega
          rw [e1, e2]
        · have hb1' : 128 ≤ b1 := by omega
          rw [uvarint_step_cont l1 1 _ 7 hb1' hb1 (by omega) (by norm_num; omega)
            (by omega)] at h
          have ha1 : b1 &&& 127 < 128 := Nat.lt_succ_of_le Nat.and_le_right
          cases l1 with
          | nil =>
            rw [uvarintLoop_nil] at h
            simp only [Prod.mk.injEq] at h
            omega
          | cons b2 l2 =>
            have hb2 : b2 < 256 := hb b2 (by simp)
            by_cases c2 : b2 < 128
            · rw [uvarint_step_last l2 2 _ 14 c2 (by omega) (by norm_num; omega)
                (by omega)] at h
              norm_num at h
              obtain ⟨hv, hm⟩ := h
              have hmeq : m = 3 := by omega
              subst hmeq
              refine ⟨by omega, fun hlen => ?_⟩
              have hsplit0 := byte_hi_split b0 hb0 hb0'
              have hsplit1 := byte_hi_split b1 hb1 hb1'
              have hrange : 16384 ≤ v ∧ v ≤ 2097151 := by
                rw [putUvarint_length (by omega)] at hlen
                split_ifs at hlen <;> omega
              rw [putUvarint_three hrange.1 hrange.2]
              show [b0, b1, b2] = [v % 128 + 128, v / 128 % 128 + 128, v / 16384]
              have e1 : v % 128 + 128 = b0 := by omega
              have e2 : v / 128 % 128 + 128 = b1 := by omega
              have e3 : v / 16384 = b2 := by omega
              rw [e1, e2, e3]
            · have hb2' : 128 ≤ b2 := by omega
              rw [uvarint_step_cont l2 2 _ 14 hb2' hb2 (by omega) (by norm_num; omega)
                (by omega)] at h
              have ha2 : b2 &&& 127 < 128 := Nat.lt_succ_of_le Nat.and_le_right
              cases l2 with
              | nil =>
                rw [uvarintLoop_nil] at h
                simp only [Prod.mk.injEq] at h
                omega
              | cons b3 l3 =>
                have hb3 : b3 < 256 := hb b3 (by simp)
                by_cases c3 : b3 < 128
                · rw [uvarint_step_last l3 3 _ 21 c3 (by omega) (by norm_num; omega)
                    (by omega)] at h
                  norm_num at h
                  obtain ⟨hv, hm⟩ := h
                  have hmeq : m = 4 := by omega
                  subst hmeq
                  refine ⟨by omega, fun hlen => ?_⟩
                  have hsplit0 := byte_hi_split b0 hb0 hb0'
                  have hsplit1 := byte_hi_split b1 hb1 hb1'
                  have hsplit2 := byte_hi_split b2 hb2 hb2'
                  have hrange : 2097152 ≤ v ∧ v ≤ 268435455 := by
                    rw [putUvarint_length (by omega)] at hlen
                    split_ifs at hlen <;> omega
                  rw [putUvarint_four hrange.1 hrange.2]
                  show [b0, b1, b2, b3] =
                    [v % 128 + 128, v / 128 % 128 + 128, v / 16384 % 128 + 128, v / 2097152]
                  have e1 : v % 128 + 128 = b0 := by omega
                  have e2 : v / 128 % 128 + 128 = b1 := by omega
                  have e3 : v / 16384 % 128 + 128 = b2 := by omega
                  have e4 : v / 2097152 = b3 := by omega
                  rw [e1, e2, e3, e4]
                · have hb3' : 128 ≤ b3 := by omega
                  rw [uvarint_step_cont l3 3 _ 21 hb3' hb3 (by omega) (by norm_num; omega)
                    (by omega)] at h
                  exfalso
                  have hbd := uvarintLoop_snd_bounds l3 4
                    (0 + (b0 &&& 127) * 2 ^ 0 + (b1 &&& 127) * 2 ^ 7 +
                      (b2 &&& 127) * 2 ^ 14 + (b3 &&& 127) * 2 ^ 21) 28
                  rw [h] at hbd
                  simp only [Prod.snd] at hbd
                  omega

/-- Encode succeeds on a header that stores a 1-byte type slice with a
valid type and a legal remaining length, writing the type byte followed by
the canonical varint. -/
theorem encode_mk_ok {v : Nat} (hv : v ≤ 268435455) {b : Nat} (pid db : List Nat) (d : Bool)
    {dstLen : Nat} (ht : MessageType.Valid (b >>> 4) = true)
    (hdst : (header.mk (v : Int) [b] pid db d).msgLen ≤ dstLen) :
    (header.mk (v : Int) [b] pid db d).encode dstLen =
      (header.mk (v : Int) [b] pid db d,
        .ok (b :: putUvarint v) (1 + (putUvarint v).length)) := by
  unfold header.encode header.mType maxRemainingLength
  dsimp only [List.length_cons, List.length_nil]
  rw [if_neg (by omega : ¬((0 : Nat) + 1 ≠ 1))]
  dsimp only [List.headD_cons]
  rw [if_neg (by omega), if_neg (by omega), if_neg (not_not_intro ht)]
  rw [show uint64ofInt32 ((v : Nat) : Int) = v from by
    rw [uint64ofInt32_nonneg (by omega) (by norm_num; omega)]
    exact Int.toNat_natCast v]

/-! ### C4 amended — decode leaves the dirty flag unchanged -/

/-- C4 (amended): a successful decode leaves the dirty flag exactly as it
was before the call — it never clears an already-set flag, and a clean
header stays clean. -/
theorem C4_amended_decode_preserves_dirty (h h' : header) (src : List Nat) (n : Int)
    (hdec : h.decode src = (h', .ok n)) : h'.dirty = h.dirty := by
  obtain ⟨b, rest, _, _, _, _, _, hh, _⟩ := decode_ok_inversion hdec
  rw [hh]

/-! ### C6 amended — byte-exact re-encode for minimal source varints -/

/-- C6 (amended): after a successful decode that consumed `n` bytes, if
`n` equals the header's computed message length — i.e. the source used
the minimal varint encoding of the remaining length — then an immediate
encode into a large enough buffer writes back exactly those `n` source
bytes; a non-minimal source varint instead re-encodes to the shorter
canonical form. -/
theorem C6_amended_minimal_reencode (h h' : header) (src : List Nat) (n : Int) (dstLen : Nat)
    (hbytes : ∀ x ∈ src, x < 256)
    (hdec : h.decode src = (h', .ok n))
    (hmin : n = (h'.msgLen : Int))
    (hdst : h'.msgLen ≤ dstLen) :
    h'.encode dstLen = (h', .ok (src.take h'.msgLen) h'.msgLen) := by
  obtain ⟨b, rest, hsrc, hlen1, hval, hty, hn, hh, hmax, hpos, hle, htr⟩ :=
    decode_ok_inversion hdec
  subst hsrc
  have hmb := msgLen_bounds h'
  have hcint : (uvarint rest).2 = ((h'.msgLen - 1 : Nat) : Int) := by omega
  have hu : uvarint rest = ((uvarint rest).1, ((h'.msgLen - 1 : Nat) : Int)) := by
    rw [← hcint]
  have hby := uvarint_bytes (fun x hx => hbytes x (by simp [hx])) hu (by omega) (by omega)
  obtain ⟨hvmax, htake⟩ := hby
  have hint : int32ofUint64 (uvarint rest).1 = ((uvarint rest).1 : Int) :=
    int32ofUint64_small (by norm_num; omega)
  rw [hint] at hh
  subst hh
  have hml := msgLen_mk hvmax [b] h.packetID (b :: rest) h.dirty
  have hplen : (putUvarint (uvarint rest).1).length =
      (header.mk ((uvarint rest).1 : Int) [b] h.packetID (b :: rest) h.dirty).msgLen - 1 := by
    omega
  have htake' := htake hplen
  rw [encode_mk_ok hvmax _ _ _ hval hdst, hml]
  rw [show (1 + (putUvarint (uvarint rest).1).length) =
    ((putUvarint (uvarint rest).1).length + 1) from by omega]
  rw [List.take_succ_cons]
  rw [← hplen] at htake'
  rw [htake']

/-! ### C1 — encode/decode round trip -/

/-- C1: for every header storing a valid packet type (1-14) with flags
legal for that type and a remaining length between 0 and 268435455,
encoding into a sufficiently large buffer succeeds, and decoding the
encoded bytes (padded with the body the remaining length announces) yields
a header with the same type, the same flags and the same remaining
length. -/
theorem C1_roundtrip (b v : Nat) (pid db : List Nat) (d : Bool) (dstLen : Nat)
    (ht : MessageType.Valid (b >>> 4) = true)
    (hf1 : b >>> 4 ≠ PUBLISH → b &&& 15 = MessageType.DefaultFlags (b >>> 4))
    (hf2 : b >>> 4 = PUBLISH → ValidQos (((b &&& 15) >>> 1) &&& 3) = true)
    (hv : v ≤ 268435455)
    (hdst : (header.mk (v : Int) [b] pid db d).msgLen ≤ dstLen) :
    (header.mk (v : Int) [b] pid db d).encode dstLen =
      (header.mk (v : Int) [b] pid db d,
        .ok (b :: putUvarint v) (1 + (putUvarint v).length)) ∧
    (header.mk (v : Int) [b] pid db d).decode ((b :: putUvarint v) ++ List.replicate v 0) =
      (header.mk (v : Int) [b] pid ((b :: putUvarint v) ++ List.replicate v 0) d,
        .ok (1 + ((putUvarint v).length : Int))) := by
  refine ⟨encode_mk_ok hv pid db d ht hdst, ?_⟩
  rw [List.cons_append]
  have hc : ¬(([b] : List Nat).length ≠ 1) := by simp
  simp only [header.decode, header.mType, if_neg hc]
  rw [uvarint_putUvarint hv (List.replicate v 0)]
  dsimp only [List.headD_cons]
  rw [show int32ofUint64 v = ((v : Nat) : Int) from int32ofUint64_small (by norm_num; omega)]
  rw [if_neg (not_not_intro ht), if_neg (by simp),
    if_neg (fun hx => hx.2 (hf1 hx.1)), if_neg (fun hx => hx.2 (hf2 hx.1)),
    if_neg (by simp only [maxRemainingLength]; omega),
    if_neg (by
      simp only [List.length_cons, List.length_append, List.length_replicate]
      push_cast
      omega),
    if_neg (by
      simp only [List.length_cons, List.length_append, List.length_replicate]
      push_cast
      omega)]

/-! ### C7 amended — varint sizes for nonnegative remaining lengths -/

/-- C7 (amended): for a header with a valid stored type and a buffer of
sufficient capacity, encode writes a remaining-length field of exactly
1 byte when the stored remaining length is between 0 and 127 (total 2
bytes), 2 bytes for 128..16383 (total 3), 3 bytes for 16384..2097151
(total 4), 4 bytes for 2097152..268435455 (total 5), and fails with
`RemainingLengthOutOfRange` when the stored remaining length is 268435456
or more.  (The original claim said "at most 127" with no lower bound; a
negative stored remaining length makes encode fail instead.) -/
theorem C7_amended_varint_sizes (b : Nat) (remLen : Int) (pid db : List Nat) (d : Bool)
    (dstLen : Nat)
    (ht : MessageType.Valid (b >>> 4) = true)
    (hdst : (header.mk remLen [b] pid db d).msgLen ≤ dstLen) :
    (0 ≤ remLen → remLen ≤ 127 →
      (putUvarint remLen.toNat).length = 1 ∧
      (header.mk remLen [b] pid db d).encode dstLen =
        (header.mk remLen [b] pid db d, .ok (b :: putUvarint remLen.toNat) 2)) ∧
    (128 ≤ remLen → remLen ≤ 16383 →
      (putUvarint remLen.toNat).length = 2 ∧
      (header.mk remLen [b] pid db d).encode dstLen =
        (header.mk remLen [b] pid db d, .ok (b :: putUvarint remLen.toNat) 3)) ∧
    (16384 ≤ remLen → remLen ≤ 2097151 →
      (putUvarint remLen.toNat).length = 3 ∧
      (header.mk remLen [b] pid db d).encode dstLen =
        (header.mk remLen [b] pid db d, .ok (b :: putUvarint remLen.toNat) 4)) ∧
    (2097152 ≤ remLen → remLen ≤ 268435455 →
      (putUvarint remLen.toNat).length = 4 ∧
      (header.mk remLen [b] pid db d).encode dstLen =
        (header.mk remLen [b] pid db d, .ok (b :: putUvarint remLen.toNat) 5)) ∧
    (268435456 ≤ remLen →
      (header.mk remLen [b] pid db d).encode dstLen =
        (header.mk remLen [b] pid db d, .err 0 .RemainingLengthOutOfRange)) := by
  refine ⟨?_, ?_, ?_, ?_, ?_⟩
  · intro h0 h1
    have hlen : (putUvarint remLen.toNat).length = 1 := by
      rw [putUvarint_one (by omega)]
      rfl
    refine ⟨hlen, ?_⟩
    set w : Nat := remLen.toNat with hw
    have hveq : remLen = (w : Int) := by omega
    rw [hveq] at hdst ⊢
    rw [encode_mk_ok (by omega) pid db d ht hdst, hlen]
  · intro h0 h1
    have hlen : (putUvarint remLen.toNat).length = 2 := by
      rw [putUvarint_two (by omega) (by omega)]
      rfl
    refine ⟨hlen, ?_⟩
    set w : Nat := remLen.toNat with hw
    have hveq : remLen = (w : Int) := by omega
    rw [hveq] at hdst ⊢
    rw [encode_mk_ok (by omega) pid db d ht hdst, hlen]
  · intro h0 h1
    have hlen : (putUvarint remLen.toNat).length = 3 := by
      rw [putUvarint_three (by omega) (by omega)]
      rfl
    refine ⟨hlen, ?_⟩
    set w : Nat := remLen.toNat with hw
    have hveq : remLen = (w : Int) := by omega
    rw [hveq] at hdst ⊢
    rw [encode_mk_ok (by omega) pid db d ht hdst, hlen]
  · intro h0 h1
    have hlen : (putUvarint remLen.toNat).length = 4 := by
      rw [putUvarint_four (by omega) (by omega)]
      rfl
    refine ⟨hlen, ?_⟩
    set w : Nat := remLen.toNat with hw
    have hveq : remLen = (w : Int) := by omega
    rw [hveq] at hdst ⊢
    rw [encode_mk_ok (by omega) pid db d ht hdst, hlen]
  · intro h0
    unfold header.encode
    rw [if_neg (by omega)]
    rw [if_pos (by
      show remLen > (268435455 : Int) ∨ remLen < 0
      omega)]

/-! ### C8 — flags and QoS validation in decode -/

/-- C8: for a source buffer whose first byte carries a valid packet type,
decoded into a header whose current type matches (see C2): a non-PUBLISH
type whose flags nibble differs from the type's fixed default flags fails
with `InvalidFlags`; a PUBLISH byte whose QoS bits (bits 2-1) equal 3
fails with `InvalidQoS`; and a PUBLISH byte with QoS bits 0, 1 or 2 passes
this validation step — whatever the rest of the buffer makes decode
return, it is neither the `InvalidFlags` nor the `InvalidQoS` error. -/
theorem C8_flags_qos_validation (rl : Int) (c b : Nat) (pid db rest : List Nat) (d : Bool)
    (hc4 : c >>> 4 = b >>> 4)
    (ht : MessageType.Valid (b >>> 4) = true) :
    (b >>> 4 ≠ PUBLISH → b &&& 15 ≠ MessageType.DefaultFlags (b >>> 4) →
      (header.mk rl [c] pid db d).decode (b :: rest) =
        (header.mk rl [b] pid (b :: rest) d, .err 0 .InvalidFlags)) ∧
    (b >>> 4 = PUBLISH → ((b &&& 15) >>> 1) &&& 3 = 3 →
      (header.mk rl [c] pid db d).decode (b :: rest) =
        (header.mk rl [b] pid (b :: rest) d, .err 0 .InvalidQoS)) ∧
    (b >>> 4 = PUBLISH → ((b &&& 15) >>> 1) &&& 3 ≠ 3 →
      ∀ n : Int,
        ((header.mk rl [c] pid db d).decode (b :: rest)).2 ≠ .err n .InvalidFlags ∧
        ((header.mk rl [c] pid db d).decode (b :: rest)).2 ≠ .err n .InvalidQoS) := by
  have hc : ¬(([c] : List Nat).length ≠ 1) := by simp
  have hmis : ¬(([c] : List Nat).headD 0 >>> 4 ≠ b >>> 4) := by
    simp only [List.headD_cons]
    omega
  refine ⟨?_, ?_, ?_⟩
  · intro hne hfl
    simp only [header.decode, header.mType, if_neg hc]
    dsimp only [List.headD_cons]
    rw [if_neg (not_not_intro ht), if_neg (by omega), if_pos ⟨hne, hfl⟩]
  · intro hp hq3
    simp only [header.decode, header.mType, if_neg hc]
    dsimp only [List.headD_cons]
    rw [if_neg (not_not_intro ht), if_neg (by omega),
      if_neg (fun hx => hx.1 hp),
      if_pos ⟨hp, by rw [hq3]; simp [ValidQos]⟩]
  · intro hp hqne n
    have hqv : ValidQos (((b &&& 15) >>> 1) &&& 3) = true := by
      have hle : ((b &&& 15) >>> 1) &&& 3 ≤ 3 := Nat.and_le_right
      simp only [ValidQos, decide_eq_true_eq]
      omega
    simp only [header.decode, header.mType, if_neg hc]
    dsimp only [List.headD_cons]
    rw [if_neg (not_not_intro ht), if_neg (by omega),
      if_neg (fun hx => hx.1 hp), if_neg (fun hx => hx.2 hqv)]
    constructor
    · split
      · simp
      · split
        · simp
        · split <;> simp
    · split
      · simp
      · split
        · simp
        · split <;> simp

/-! ### C9 amended — truncation dichotomy for nonnegative varint counts -/

/-- C9 (amended): for a source buffer that passes the type, flags and
remaining-length-range validation of decode, and whose varint decode
consumed a nonnegative byte count `m` (an overlong varint makes
`binary.Uvarint` report a negative count, which decode turns into a
panic — see the counterexample): if the decoded remaining length exceeds
the bytes remaining after the `1 + m` header bytes, decode fails with
`TruncatedMessage`; otherwise decode succeeds and returns `1 + m`. -/
theorem C9_amended_truncation_dichotomy (rl : Int) (c b : Nat) (pid db rest : List Nat)
    (d : Bool) (v : Nat) (m : Int)
    (hc4 : c >>> 4 = b >>> 4)
    (ht : MessageType.Valid (b >>> 4) = true)
    (hf1 : b >>> 4 ≠ PUBLISH → b &&& 15 = MessageType.DefaultFlags (b >>> 4))
    (hf2 : b >>> 4 = PUBLISH → ValidQos (((b &&& 15) >>> 1) &&& 3) = true)
    (hu : uvarint rest = (v, m)) (hm : 0 ≤ m)
    (hrange : int32ofUint64 v ≤ maxRemainingLength) :
    ((((b :: rest).length : Int) - (1 + m) < int32ofUint64 v →
      (header.mk rl [c] pid db d).decode (b :: rest) =
        (header.mk (int32ofUint64 v) [b] pid (b :: rest) d,
          .err (1 + m) .TruncatedMessage))) ∧
    (int32ofUint64 v ≤ ((b :: rest).length : Int) - (1 + m) →
      (header.mk rl [c] pid db d).decode (b :: rest) =
        (header.mk (int32ofUint64 v) [b] pid (b :: rest) d, .ok (1 + m))) := by
  have hc : ¬(([c] : List Nat).length ≠ 1) := by simp
  have hmle : m ≤ (rest.length : Int) := by
    have := uvarint_snd_le_length rest
    rw [hu] at this
    exact this
  constructor
  · intro htr
    simp only [header.decode, header.mType, if_neg hc]
    rw [hu]
    dsimp only [List.headD_cons]
    rw [if_neg (not_not_intro ht), if_neg (by omega),
      if_neg (fun hx => hx.2 (hf1 hx.1)), if_neg (fun hx => hx.2 (hf2 hx.1)),
      if_neg (by omega),
      if_neg (by
        simp only [List.length_cons]
        push_cast
        omega),
      if_pos htr]
  · intro htr
    simp only [header.decode, header.mType, if_neg hc]
    rw [hu]
    dsimp only [List.headD_cons]
    rw [if_neg (not_not_intro ht), if_neg (by omega),
      if_neg (fun hx => hx.2 (hf1 hx.1)), if_neg (fun hx => hx.2 (hf2 hx.1)),
      if_neg (by omega),
      if_neg (by
        simp only [List.length_cons]
        push_cast
        omega),
      if_neg (by omega)]

/-! ### Witnesses -/

/-- Witness for C1 at a SUBSCRIBE header (type 8, flags 0b0010, remaining
length 1). -/
theorem C1_roundtrip_witness :
    (header.mk ((1 : Nat) : Int) [130] [] [] false).encode 2 =
      (header.mk ((1 : Nat) : Int) [130] [] [] false,
        .ok (130 :: putUvarint 1) (1 + (putUvarint 1).length)) ∧
    (header.mk ((1 : Nat) : Int) [130] [] [] false).decode
        ((130 :: putUvarint 1) ++ List.replicate 1 0) =
      (header.mk ((1 : Nat) : Int) [130] [] ((130 :: putUvarint 1) ++ List.replicate 1 0) false,
        .ok (1 + ((putUvarint 1).length : Int))) :=
  C1_roundtrip 130 1 [] [] false 2 (by decide) (by decide) (by decide) (by decide) (by decide)

/-- Witness for C2: a fresh header rejects a valid CONNECT buffer, and a
successful decode implies the prior type matched. -/
theorem C2_prior_type_gate_witness :
    (header.fresh.decode [16, 0]).2 = .err 0 .TypeMismatch ∧
    (header.mk 0 [16] [] [] true).mType.2 = [16, 0].headD 0 >>> 4 :=
  ⟨C2_prior_type_gate.1 16 [0] (by decide),
   C2_prior_type_gate.2 (header.mk 0 [16] [] [] true)
     (header.mk 0 [16] [] [16, 0] true) [16, 0] 2 (by decide)⟩

/-- Witness for the amended C4: a clean header stays clean across a
successful decode. -/
theorem C4_amended_witness :
    (header.mk 0 [16] [] [16, 0] false).dirty = (header.mk 0 [16] [] [] false).dirty :=
  C4_amended_decode_preserves_dirty (header.mk 0 [16] [] [] false)
    (header.mk 0 [16] [] [16, 0] false) [16, 0] 2 (by decide)

/-- Witness for the amended C6: a minimally-encoded CONNECT header with
remaining length 5 re-encodes to its own first two source bytes. -/
theorem C6_amended_witness :
    (header.mk 5 [16] [] [16, 5, 1, 2, 3, 4, 5] false).encode 2 =
      (header.mk 5 [16] [] [16, 5, 1, 2, 3, 4, 5] false,
        .ok ([16, 5, 1, 2, 3, 4, 5].take
              (header.mk 5 [16] [] [16, 5, 1, 2, 3, 4, 5] false).msgLen)
          (header.mk 5 [16] [] [16, 5, 1, 2, 3, 4, 5] false).msgLen) :=
  C6_amended_minimal_reencode (header.mk 5 [16] [] [] false)
    (header.mk 5 [16] [] [16, 5, 1, 2, 3, 4, 5] false) [16, 5, 1, 2, 3, 4, 5] 2 2
    (by decide) (by decide) (by decide) (by decide)

/-- Witness for the amended C7: remaining length 0 encodes in 1 varint
byte, 2 bytes total. -/
theorem C7_amended_witness :
    (putUvarint ((0 : Int)).toNat).length = 1 ∧
    (header.mk 0 [16] [] [] false).encode 5 =
      (header.mk 0 [16] [] [] false, .ok (16 :: putUvarint ((0 : Int)).toNat) 2) :=
  (C7_amended_varint_sizes 16 0 [] [] false 5 (by decide) (by decide)).1
    (by decide) (by decide)

/-- Witness for C8: a SUBSCRIBE byte with flags 0b0000 is rejected with
`InvalidFlags`. -/
theorem C8_witness :
    (header.mk 0 [128] [] [] false).decode [128, 0] =
      (header.mk 0 [128] [] [128, 0] false, .err 0 .InvalidFlags) :=
  (C8_flags_qos_validation 0 128 128 [] [] [0] false rfl (by decide)).1
    (by decide) (by decide)

/-- Witness for the amended C9: a CONNECT packet declaring remaining
length 5 over exactly 5 body bytes decodes successfully, consuming
1 + 1 bytes. -/
theorem C9_amended_witness :
    (header.mk 0 [16] [] [] false).decode (16 :: [5, 1, 2, 3, 4, 5]) =
      (header.mk (int32ofUint64 5) [16] [] (16 :: [5, 1, 2, 3, 4, 5]) false,
        .ok (1 + 1)) :=
  (C9_amended_truncation_dichotomy 0 16 16 [] [] [5, 1, 2, 3, 4, 5] false 5 1 rfl
      (by decide) (by decide) (by decide) (by decide) (by decide) (by decide)).2 (by decide)

end SurgeMQ
